import Mathlib

/-
Verification of the topology-derivation core of fipy's gmshImport.py
(src/fipy/meshes/numMesh/gmshImport.py), as a shallow embedding.

Conventions of the embedding:
* Python exceptions (KeyError, ValueError, ZeroDivisionError, IndexError,
  raised errors) are modelled by `Option`/`Except` results, `none`/`.error`
  meaning "the Python code raises".
* numpy integer arrays are modelled by `List Int` / `List Nat`;
  uninitialized entries of `nx.empty` arrays are modelled by `none`.
* The Python dict keyed by the string `' '.join(str(x) for x in sorted(face))`
  is modelled by an association list keyed directly by the sorted vertex
  list: the space-joined decimal string is an injective encoding of that
  sorted list, so equality of keys coincides.
-/

namespace GmshImport

/-- Shape-code table from `MshFile.__init__` (gmshImport.py lines 73-77):
in 2-D, shape code 2 (triangle) has 3 sides and code 3 (quadrangle) has 4;
in 3-D only code 4 (tetrahedron, 4 sides) is supported.  `none` models a
KeyError on an unsupported code. -/
def numFacesForShape (dimensions : Nat) : Nat → Option Nat := fun shape =>
  if dimensions = 2 then
    if shape = 2 then some 3
    else if shape = 3 then some 4
    else none
  else
    if shape = 4 then some 4 else none

/-- Insertion step of an ascending sort, used to model Python's `sorted`. -/
def insertSorted (a : Nat) : List Nat → List Nat
  | [] => [a]
  | b :: t => if a ≤ b then a :: b :: t else b :: insertSorted a t

/-- Canonical key of a face: `sorted(currFace)` from `_deriveCellsAndFaces`
(line 256).  The Python code then joins the sorted entries with spaces into a
string dict key; that encoding is injective, so we key on the sorted list. -/
def canonKey (face : List Nat) : List Nat := face.foldr insertSorted []

/-- Lookup in the association list modelling `facesDict`
(`facesDict.has_key(keyStr)` / `facesDict[keyStr]`, lines 258-261). -/
def dictFind (k : List Nat) : List (List Nat × Nat) → Option Nat
  | [] => none
  | (k', v) :: rest => if k = k' then some v else dictFind k rest

/-- Embedding of `MshFile._extractFaces` (lines 317-329): the i-th candidate
face is the cyclic window of length `faceLen` of the cell's vertex list
starting at offset `i`, indices taken modulo the vertex count. -/
def extractFaces (faceLen facesPerCell : Nat) (cell : List Nat) : List (List Nat) :=
  (List.range facesPerCell).map fun i =>
    (List.range faceLen).map fun j => cell.getD ((i + j) % cell.length) 0

/-- Inner loop of `_deriveCellsAndFaces` (lines 253-264) over one cell's
candidate faces: threading `facesDict`, `currNumFaces` and `uniqueFaces`,
and emitting the FaceID written into this cell's `cellsToFaces` row. -/
def processFaces (dict : List (List Nat × Nat)) (n : Nat) (uniq : List (List Nat)) :
    List (List Nat) → List (List Nat × Nat) × Nat × List (List Nat) × List Int
  | [] => (dict, n, uniq, [])
  | f :: fs =>
    match dictFind (canonKey f) dict with
    | some id =>
      match processFaces dict n uniq fs with
      | (d', n', u', ids) => (d', n', u', ((id : Nat) : Int) :: ids)
    | none =>
      match processFaces ((canonKey f, n) :: dict) (n + 1) (uniq ++ [f]) fs with
      | (d', n', u', ids) => (d', n', u', ((n : Nat) : Int) :: ids)

/-- Outer loop of `_deriveCellsAndFaces` (lines 248-264) over the cells.
Each cell's row of `cellsToFaces` starts as `-1`s (line 242) and only the
first `facesPerCell` slots are overwritten, so a row is the emitted FaceIDs
padded with `-1` up to `maxFaces`.  `none` models the ZeroDivisionError
raised by `_extractFaces` when a cell has an empty vertex list (and the
KeyError on an unsupported shape code). -/
def deriveLoop (dims maxFaces : Nat) (dict : List (List Nat × Nat)) (n : Nat)
    (uniq : List (List Nat)) :
    List (List Nat × Nat) →
      Option (List (List Nat × Nat) × Nat × List (List Nat) × List (List Int))
  | [] => some (dict, n, uniq, [])
  | (cell, shape) :: rest =>
    match numFacesForShape dims shape with
    | none => none
    | some fpc =>
      if 0 < fpc ∧ 0 < dims ∧ cell = [] then none
      else
        match processFaces dict n uniq (extractFaces dims fpc cell) with
        | (d', n', u', ids) =>
          match deriveLoop dims maxFaces d' n' u' rest with
          | none => none
          | some (d'', n'', u'', rows) =>
            some (d'', n'', u'', (ids ++ List.replicate (maxFaces - fpc) (-1 : Int)) :: rows)

/-- Sorted insertion skipping duplicates, building blocks of `nx.unique`. -/
def insertUniqueSorted (a : Nat) : List Nat → List Nat
  | [] => [a]
  | b :: t =>
    if a < b then a :: b :: t
    else if a = b then b :: t
    else b :: insertUniqueSorted a t

/-- Model of `nx.unique` (line 236): the sorted list of distinct values. -/
def npUnique (l : List Nat) : List Nat := l.foldr insertUniqueSorted []

/-- Model of the list comprehension
`[self.numFacesForShape[x] for x in allShapes]` (line 237): `none` models
the KeyError raised on the first unsupported shape code. -/
def mapOption (f : α → Option β) : List α → Option (List β)
  | [] => some []
  | x :: xs =>
    match f x, mapOption f xs with
    | some y, some ys => some (y :: ys)
    | _, _ => none

/-- Model of Python's `max` on a list (line 237): raises (here `none`) on an
empty list, otherwise the maximum. -/
def listMax : List Nat → Option Nat
  | [] => none
  | x :: xs => some (xs.foldl max x)

/-- Computation of `maxFaces` in `_deriveCellsAndFaces` (lines 236-237):
`max([self.numFacesForShape[x] for x in nx.unique(shapeTypes).tolist()])`. -/
def maxFacesPerCell (dims : Nat) (cells : List (List Nat × Nat)) : Option Nat :=
  match mapOption (numFacesForShape dims) (npUnique (cells.map Prod.snd)) with
  | none => none
  | some faceCounts => listMax faceCounts

/-- Embedding of `MshFile._deriveCellsAndFaces` (lines 228-268) up to (but not
including) the final `formatForFiPy` axis transform: returns the unique-face
array (`facesToVertices`, one face per row, in first-seen FaceID order) and
the `cellsToFaces` adjacency table (one row per cell).  Cells are given as
(vertex list, shape code) pairs, pairing `cellsToVertIDs` with `shapeTypes`;
`faceLength` is `self.dimensions` (line 240). -/
def deriveCellsAndFacesPreFormat (dims : Nat) (cells : List (List Nat × Nat)) :
    Option (List (List Nat) × List (List Int)) :=
  match maxFacesPerCell dims cells with
  | none => none
  | some maxFaces =>
    match deriveLoop dims maxFaces [] 0 [] cells with
    | none => none
    | some (_, _, uniq, rows) => some (uniq, rows)

/-- Model of numpy's 2-D `transpose` on a rectangular array stored as a list
of rows: entry (j, k) of the result is entry (k, j) of the input. -/
def npTranspose (d : α) (m : List (List α)) : List (List α) :=
  (List.range (m.headD []).length).map fun j => m.map fun row => row.getD j d

/-- Embedding of `formatForFiPy` (line 234): `arr.swapaxes(0,1)[::-1]`. -/
def formatForFiPy (d : α) (arr : List (List α)) : List (List α) :=
  (npTranspose d arr).reverse

/-- Full `MshFile._deriveCellsAndFaces` including the final `formatForFiPy`
transform applied to both outputs (line 268). -/
def deriveCellsAndFaces (dims : Nat) (cells : List (List Nat × Nat)) :
    Option (List (List Nat) × List (List Int)) :=
  (deriveCellsAndFacesPreFormat dims cells).map fun p =>
    (formatForFiPy 0 p.1, formatForFiPy 0 p.2)

/-- Candidate faces generated for one cell during derivation (line 251). -/
def candidateFaces (dims : Nat) (cell : List Nat × Nat) : List (List Nat) :=
  match numFacesForShape dims cell.2 with
  | none => []
  | some fpc => extractFaces dims fpc cell.1

/-- All candidate faces generated across the whole derivation pass. -/
def allCandidateFaces (dims : Nat) (cells : List (List Nat × Nat)) : List (List Nat) :=
  (cells.map (candidateFaces dims)).flatten

/-- Sequential writes of `vertexToIdx[vertexIDs] = nx.arange(len(vertexIDs))`
(`MshFile._vertexCoordsAndMap`, line 223): the entry for vertex `v` is set to
its position `i` in the ID column, later writes overwriting earlier ones.
The base map models the uninitialized contents of `nx.empty` (line 222). -/
def assignIndicesFrom (i : Nat) (m : Nat → Option Nat) : List Nat → (Nat → Option Nat)
  | [] => m
  | v :: vs => assignIndicesFrom (i + 1) (fun x => if x = v then some i else m x) vs

/-- Embedding of `MshFile._vertexCoordsAndMap` (lines 204-226).  A node record
is its VertexID (column 0 of `gen`) paired with its coordinate fields
(`gen[:, 1:]`); coordinate values only pass through, so they are modelled as
integers.  Returns `vertexCoords.transpose()[:coordDimensions]` and the
`vertexToIdx` map; `none` models the exception raised by `vertexIDs.max()`
on an empty node block. -/
def vertexCoordsAndMap (coordDims : Nat) (nodes : List (Nat × List Int)) :
    Option (List (List Int) × (Nat → Option Nat)) :=
  match nodes with
  | [] => none
  | _ :: _ =>
    let vertexCoords := nodes.map Prod.snd
    let vertexIDs := nodes.map Prod.fst
    let vertexToIdx := assignIndicesFrom 0 (fun _ => none) vertexIDs
    some ((npTranspose 0 vertexCoords).take coordDims, vertexToIdx)

/-- Ghost-ID scan of `PartedMshFile._parseElementFile` (lines 484-490), on the
reversed tag list: `while tags[0] < 0`, if `tags[0] * -1 == pid` the element
is someone's ghost copy held by this processor (and the loop breaks without
popping), otherwise the head is popped.  Returns whether a ghost match was
found together with the remaining tag list; `none` models the IndexError of
`tags[0]` on an empty list. -/
def ghostScan (pid : Int) : List Int → Option (Bool × List Int)
  | [] => none
  | t :: rest =>
    if t < 0 then
      if t * -1 = pid then some (true, t :: rest)
      else ghostScan pid rest
    else some (false, t :: rest)

/-- Partition-tag classification of one element in
`PartedMshFile._parseElementFile` (lines 484-493), taking the already
reversed tag list: the element is added to the ghost set if the ghost scan
matches, and (independently) to the owned set if the tag at the head of the
remaining list equals `pid`. -/
def classifyElement (pid : Int) (tags : List Int) : Option (Bool × Bool) :=
  match ghostScan pid tags with
  | none => none
  | some (isGhost, remaining) =>
    match remaining with
    | [] => none
    | t :: _ => some (isGhost, t = pid)

/-- Classification from the file-order tag list: `tags.reverse()` (line 481)
followed by the scan. -/
def parsePartitionTags (pid : Int) (tags : List Int) : Option (Bool × Bool) :=
  classifyElement pid tags.reverse

/-- Streaming capture loop of `PartedMshFile._vertexCoordsAndMap`
(lines 404-414): walk the node stream once; whenever the current node's ID
equals the head of the wanted list, capture `line[1:coordDims+1]` and pop the
head; stop when the wanted list is empty.  Returns the captured coordinate
rows in capture order together with the wanted IDs never matched. -/
def streamCapture (coordDims : Nat) :
    List (Nat × List Int) → List Nat → List (List Int) × List Nat
  | _, [] => ([], [])
  | [], wanted => ([], wanted)
  | (nodeID, coords) :: nodes, w :: ws =>
    if nodeID = w then
      match streamCapture coordDims nodes ws with
      | (caps, leftover) => (coords.take coordDims :: caps, leftover)
    else
      match streamCapture coordDims nodes (w :: ws) with
      | (caps, leftover) => (caps, leftover)

/-- Position of a value in a list, `none` when absent. -/
def idxOfOpt (v : Nat) : List Nat → Option Nat
  | [] => none
  | a :: rest => if a = v then some 0 else (idxOfOpt v rest).map (· + 1)

/-- Embedding of `PartedMshFile._vertexCoordsAndMap` (lines 380-417).
`allVerts` is the sorted deduplicated list of VertexIDs referenced by the
local cells; `vertGIDtoIdx` maps a referenced ID to its position in
`allVerts` and any other ID to `-1` (line 392/397); the coordinate array has
one row per referenced vertex, rows never matched during the single pass
over the node stream remaining uninitialized (`nx.empty`, modelled `none`).
`none` overall models the IndexError of `allVerts[-1]` when no vertex is
referenced. -/
def partedVertexCoordsAndMap (coordDims : Nat) (cellsToGmshVerts : List (List Nat))
    (nodeLines : List (Nat × List Int)) :
    Option (List (Option (List Int)) × (Nat → Int)) :=
  let allVerts := npUnique cellsToGmshVerts.flatten
  match allVerts with
  | [] => none
  | _ :: _ =>
    match streamCapture coordDims nodeLines allVerts with
    | (captured, leftover) =>
      some (captured.map some ++ List.replicate leftover.length none,
            fun v => ((idxOfOpt v allVerts).map Int.ofNat).getD (-1))

/-- Values of Python 2 relevant to the version check: numbers and strings. -/
inductive Py2Val where
  | pyInt (n : Int)
  | pyFloat (q : Rat)
  | pyStr (s : String)

/-- Python 2 type name, used by CPython 2's default cross-type ordering. -/
def py2TypeName : Py2Val → String
  | .pyInt _ => "int"
  | .pyFloat _ => "float"
  | .pyStr _ => "str"

/-- Strict lexicographic comparison on character lists (Python string `<`). -/
def strLtChars : List Char → List Char → Bool
  | [], [] => false
  | [], _ :: _ => true
  | _ :: _, [] => false
  | a :: as, b :: bs => if a < b then true else if b < a then false else strLtChars as bs

/-- Python 2 `>=` between possibly differently-typed values: numbers compare
numerically with each other; otherwise CPython 2 falls back to comparing the
type names, so any `str` compares greater than any `int` or `float`. -/
def py2Ge (a b : Py2Val) : Bool :=
  match a, b with
  | .pyInt x, .pyInt y => decide (y ≤ x)
  | .pyInt x, .pyFloat y => decide (y ≤ (x : Rat))
  | .pyFloat x, .pyInt y => decide ((y : Rat) ≤ x)
  | .pyFloat x, .pyFloat y => decide (y ≤ x)
  | a, b => !(strLtChars (py2TypeName a).data (py2TypeName b).data)

/-- Embedding of `MshFile._checkGmshVersion` (lines 157-171): the regex match
over the installed gmsh executable's `--version` output is taken as input
(`none` when nothing matched); when a match `m` exists the code tests
`m.group(0) >= minVersion`, a Python 2 comparison of a `str` against a
number.  Note the file-header version is not an input at all: the method
never consults `self.version`. -/
def checkGmshVersion (regexMatch : Option String) (minVersion : Py2Val) :
    Except String Unit :=
  match regexMatch with
  | some g =>
    if py2Ge (.pyStr g) minVersion then .ok ()
    else .error "Gmsh version must be >= %f."
  | none => .error "Gmsh version must be >= %f."

/-- Sections of a raw .msh file relevant to `MshFile.__init__`: the tokens of
the line following `$MeshFormat`, and the line blocks of the `$Nodes` and
`$Elements` sections. -/
structure RawMshFile where
  meshFormatLine : List String
  nodesLines : List String
  elemsLines : List String

/-- Embedding of `MshFile.__init__` after file preparation (lines 79-84):
`_getMetaData` reads the `$MeshFormat` header into
`(version, fileType, dataSize)` — stored but never validated — then
`_checkGmshVersion` runs (consulting only the gmsh executable's version
output), then the `$Nodes` and `$Elements` sections are isolated.  On
success the stored metadata and both isolated sections are returned. -/
def mshFileInit (file : RawMshFile) (gmshExeVersionMatch : Option String)
    (minVersion : Py2Val) :
    Except String (List String × List String × List String) :=
  let metaData := file.meshFormatLine
  match checkGmshVersion gmshExeVersionMatch minVersion with
  | .error e => .error e
  | .ok _ => .ok (metaData, file.nodesLines, file.elemsLines)

/-- Invariant tying `facesDict` to `uniqueFaces` during derivation:
`currNumFaces` counts the unique faces, every dict entry points at the
unique face carrying its key, and every unique face's key is in the dict
with its own index. -/
def DictInv (dict : List (List Nat × Nat)) (n : Nat) (uniq : List (List Nat)) : Prop :=
  n = uniq.length ∧
  (∀ k id, dictFind k dict = some id →
    id < uniq.length ∧ canonKey (uniq.getD id []) = k) ∧
  (∀ i, i < uniq.length → dictFind (canonKey (uniq.getD i [])) dict = some i)

end GmshImport

namespace GmshImport

theorem dictFind_cons (k k' : List Nat) (v : Nat) (d : List (List Nat × Nat)) :
    dictFind k ((k', v) :: d) = if k = k' then some v else dictFind k d := rfl

theorem dictInv_nil : DictInv [] 0 [] := by
  refine ⟨rfl, fun k id h => by simp [dictFind] at h, fun i hi => by simp at hi⟩

theorem getD_append_of_lt {α : Type} (l₁ l₂ : List α) (i : Nat) (d : α)
    (h : i < l₁.length) : (l₁ ++ l₂).getD i d = l₁.getD i d := by
  rw [List.getD_eq_getElem?_getD, List.getD_eq_getElem?_getD, List.getElem?_append_left h]

theorem getD_append_length {α : Type} (l₁ : List α) (a d : α) :
    (l₁ ++ [a]).getD l₁.length d = a := by
  rw [List.getD_eq_getElem?_getD, List.getElem?_append_right (Nat.le_refl _)]
  simp

theorem getElem?_eq_some_getD {α : Type} (l : List α) (d : α) {j : Nat}
    (h : j < l.length) : l[j]? = some (l.getD j d) := by
  rw [List.getD_eq_getElem l d h]
  exact List.getElem?_eq_getElem h

theorem getD_of_getElem?_some {α : Type} {l : List α} {i : Nat} {x : α} (d : α)
    (h : l[i]? = some x) : l.getD i d = x := by
  rw [List.getD_eq_getElem?_getD, h]
  rfl

theorem dictInv_insert {dict : List (List Nat × Nat)} {n : Nat}
    {uniq : List (List Nat)} {f : List Nat} (h : DictInv dict n uniq)
    (hk : dictFind (canonKey f) dict = none) :
    DictInv ((canonKey f, n) :: dict) (n + 1) (uniq ++ [f]) := by
  obtain ⟨hn, hb, hc⟩ := h
  subst hn
  refine ⟨by simp, ?_, ?_⟩
  · intro k id hfind
    rw [dictFind_cons] at hfind
    by_cases hkey : k = canonKey f
    · rw [if_pos hkey] at hfind
      obtain rfl : uniq.length = id := by injection hfind
      refine ⟨by simp, ?_⟩
      rw [getD_append_length, hkey]
    · rw [if_neg hkey] at hfind
      obtain ⟨hlt, hkeq⟩ := hb k id hfind
      refine ⟨by simp; omega, ?_⟩
      rw [getD_append_of_lt _ _ _ _ hlt, hkeq]
  · intro i hi
    simp only [List.length_append, List.length_cons, List.length_nil] at hi
    rcases Nat.lt_or_ge i uniq.length with hlt | hge
    · rw [getD_append_of_lt _ _ _ _ hlt, dictFind_cons]
      have hne : canonKey (uniq.getD i []) ≠ canonKey f := by
        intro heq
        have := hc i hlt
        rw [heq, hk] at this
        exact Option.noConfusion this
      rw [if_neg hne]
      exact hc i hlt
    · have hie : i = uniq.length := by omega
      subst hie
      rw [getD_append_length, dictFind_cons, if_pos rfl]

theorem processFaces_spec : ∀ (fs : List (List Nat)) (dict : List (List Nat × Nat))
    (n : Nat) (uniq : List (List Nat)) (d' : List (List Nat × Nat)) (n' : Nat)
    (u' : List (List Nat)) (ids : List Int),
    processFaces dict n uniq fs = (d', n', u', ids) → DictInv dict n uniq →
    DictInv d' n' u' ∧
    (∀ k id, dictFind k dict = some id → dictFind k d' = some id) ∧
    (∃ ext, u' = uniq ++ ext ∧ ∀ g ∈ ext, g ∈ fs) ∧
    ids.length = fs.length ∧
    (∀ (j : Nat) (f : List Nat), fs[j]? = some f →
      ∃ id : Nat, ids[j]? = some ((id : Nat) : Int) ∧ dictFind (canonKey f) d' = some id)
  | [], dict, n, uniq, d', n', u', ids => by
    intro h hinv
    simp only [processFaces, Prod.mk.injEq] at h
    obtain ⟨rfl, rfl, rfl, rfl⟩ := h
    refine ⟨hinv, fun _ _ h => h, ⟨[], by simp⟩, rfl, ?_⟩
    intro j f hj
    simp at hj
  | f :: fs, dict, n, uniq, d', n', u', ids => by
    intro h hinv
    rcases hf : dictFind (canonKey f) dict with _ | id₀ <;>
      simp only [processFaces, hf] at h
    · -- new face: insert and recurse
      rcases hrec : processFaces ((canonKey f, n) :: dict) (n + 1) (uniq ++ [f]) fs
        with ⟨d₁, n₁, u₁, ids₁⟩
      rw [hrec] at h
      simp only [Prod.mk.injEq] at h
      obtain ⟨rfl, rfl, rfl, rfl⟩ := h
      have hinv₁ := dictInv_insert hinv hf
      obtain ⟨hInv', hPers, ⟨ext, hext, hextmem⟩, hlen, hslot⟩ :=
        processFaces_spec fs _ _ _ _ _ _ _ hrec hinv₁
      have hPers₀ : ∀ k id, dictFind k dict = some id → dictFind k d₁ = some id := by
        intro k id hfind
        apply hPers
        rw [dictFind_cons]
        have hne : k ≠ canonKey f := by
          intro heq
          rw [heq, hf] at hfind
          exact Option.noConfusion hfind
        rw [if_neg hne]
        exact hfind
      refine ⟨hInv', hPers₀, ⟨f :: ext, ?_, ?_⟩, by simp [hlen], ?_⟩
      · rw [hext, List.append_assoc]
        rfl
      · intro g hg
        rcases List.mem_cons.mp hg with hg | hg
        · subst hg
          exact List.mem_cons_self _ _
        · exact List.mem_cons_of_mem _ (hextmem g hg)
      · intro j g hj
        cases j with
        | zero =>
          simp only [List.getElem?_cons_zero] at hj
          obtain rfl : f = g := by injection hj
          refine ⟨n, by simp, ?_⟩
          apply hPers
          rw [dictFind_cons, if_pos rfl]
        | succ j =>
          simp only [List.getElem?_cons_succ] at hj ⊢
          exact hslot j g hj
    · -- existing face: reuse id₀
      rcases hrec : processFaces dict n uniq fs with ⟨d₁, n₁, u₁, ids₁⟩
      rw [hrec] at h
      simp only [Prod.mk.injEq] at h
      obtain ⟨rfl, rfl, rfl, rfl⟩ := h
      obtain ⟨hInv', hPers, ⟨ext, hext, hextmem⟩, hlen, hslot⟩ :=
        processFaces_spec fs _ _ _ _ _ _ _ hrec hinv
      refine ⟨hInv', hPers, ⟨ext, hext, fun g hg => List.mem_cons_of_mem _ (hextmem g hg)⟩,
        by simp [hlen], ?_⟩
      intro j g hj
      cases j with
      | zero =>
        simp only [List.getElem?_cons_zero] at hj
        obtain rfl : f = g := by injection hj
        exact ⟨id₀, by simp, hPers _ _ hf⟩
      | succ j =>
        simp only [List.getElem?_cons_succ] at hj ⊢
        exact hslot j g hj

theorem extractFaces_length (faceLen fpc : Nat) (cell : List Nat) :
    (extractFaces faceLen fpc cell).length = fpc := by
  simp [extractFaces]

theorem allCandidateFaces_cons (dims : Nat) (c : List Nat × Nat)
    (rest : List (List Nat × Nat)) :
    allCandidateFaces dims (c :: rest) =
      candidateFaces dims c ++ allCandidateFaces dims rest := by
  simp [allCandidateFaces]

theorem deriveLoop_spec : ∀ (cells : List (List Nat × Nat)) (dims maxF : Nat)
    (dict : List (List Nat × Nat)) (n : Nat) (uniq : List (List Nat))
    (d' : List (List Nat × Nat)) (n' : Nat) (u' : List (List Nat))
    (rows : List (List Int)),
    deriveLoop dims maxF dict n uniq cells = some (d', n', u', rows) →
    DictInv dict n uniq →
    DictInv d' n' u' ∧
    (∀ k id, dictFind k dict = some id → dictFind k d' = some id) ∧
    (∃ ext, u' = uniq ++ ext ∧ ∀ g ∈ ext, g ∈ allCandidateFaces dims cells) ∧
    rows.length = cells.length ∧
    (∀ (i : Nat) (c : List Nat × Nat), cells[i]? = some c →
      ∃ fpc, numFacesForShape dims c.2 = some fpc ∧
      ∃ row, rows[i]? = some row ∧ row.length = fpc + (maxF - fpc) ∧
        (∀ j, j < fpc → ∃ id : Nat, row[j]? = some ((id : Nat) : Int) ∧
          dictFind (canonKey ((extractFaces dims fpc c.1).getD j [])) d' = some id) ∧
        (∀ j, fpc ≤ j → j < fpc + (maxF - fpc) → row[j]? = some (-1)))
  | [], dims, maxF, dict, n, uniq, d', n', u', rows => by
    intro h hinv
    simp only [deriveLoop, Option.some.injEq, Prod.mk.injEq] at h
    obtain ⟨rfl, rfl, rfl, rfl⟩ := h
    refine ⟨hinv, fun _ _ h => h, ⟨[], by simp⟩, rfl, ?_⟩
    intro i c hi
    simp at hi
  | (cell, shape) :: rest, dims, maxF, dict, n, uniq, d', n', u', rows => by
    intro h hinv
    rcases hnfs : numFacesForShape dims shape with _ | fpc
    · simp [deriveLoop, hnfs] at h
    simp only [deriveLoop, hnfs] at h
    by_cases hguard : 0 < fpc ∧ 0 < dims ∧ cell = []
    · rw [if_pos hguard] at h
      exact Option.noConfusion h
    rw [if_neg hguard] at h
    rcases hpf : processFaces dict n uniq (extractFaces dims fpc cell)
      with ⟨d₁, n₁, u₁, ids₁⟩
    rw [hpf] at h
    rcases hdl : deriveLoop dims maxF d₁ n₁ u₁ rest with _ | val <;> rw [hdl] at h
    · exact Option.noConfusion h
    rcases val with ⟨d₂, n₂, u₂, rows₂⟩
    simp only [Option.some.injEq, Prod.mk.injEq] at h
    obtain ⟨rfl, rfl, rfl, rfl⟩ := h
    obtain ⟨hinv₁, hPers₁, ⟨ext₁, hext₁, hextmem₁⟩, hlen₁, hslot₁⟩ :=
      processFaces_spec _ _ _ _ _ _ _ _ hpf hinv
    obtain ⟨hinv₂, hPers₂, ⟨ext₂, hext₂, hextmem₂⟩, hlen₂, hslot₂⟩ :=
      deriveLoop_spec rest _ _ _ _ _ _ _ _ _ hdl hinv₁
    have hfslen : (extractFaces dims fpc cell).length = fpc := extractFaces_length _ _ _
    refine ⟨hinv₂, fun k id hk => hPers₂ k id (hPers₁ k id hk), ?_, by simp [hlen₂], ?_⟩
    · refine ⟨ext₁ ++ ext₂, by rw [hext₂, hext₁, List.append_assoc], ?_⟩
      intro g hg
      rw [allCandidateFaces_cons]
      rcases List.mem_append.mp hg with hg | hg
      · apply List.mem_append_left
        have : g ∈ extractFaces dims fpc cell := hextmem₁ g hg
        simpa [candidateFaces, hnfs] using this
      · exact List.mem_append_right _ (hextmem₂ g hg)
    · intro i c hi
      cases i with
      | zero =>
        simp only [List.getElem?_cons_zero] at hi
        obtain rfl : (cell, shape) = c := by injection hi
        refine ⟨fpc, hnfs, ids₁ ++ List.replicate (maxF - fpc) (-1 : Int),
          by simp, ?_, ?_, ?_⟩
        · simp [hlen₁, hfslen]
        · intro j hj
          have hjlen : j < ids₁.length := by rw [hlen₁, hfslen]; exact hj
          have hfj : (extractFaces dims fpc cell)[j]? =
              some ((extractFaces dims fpc cell).getD j []) := by
            apply getElem?_eq_some_getD
            rw [hfslen]; exact hj
          obtain ⟨id, hid, hfind⟩ := hslot₁ j _ hfj
          refine ⟨id, ?_, hPers₂ _ _ hfind⟩
          rw [List.getElem?_append_left hjlen]
          exact hid
        · intro j hj₁ hj₂
          have hjlen : ids₁.length ≤ j := by rw [hlen₁, hfslen]; exact hj₁
          rw [List.getElem?_append_right hjlen]
          have : j - ids₁.length < maxF - fpc := by
            rw [hlen₁, hfslen]; omega
          simp [List.getElem?_replicate, this]
      | succ i =>
        simp only [List.getElem?_cons_succ] at hi ⊢
        exact hslot₂ i c hi

theorem self_mem_insertUniqueSorted (a : Nat) : ∀ l : List Nat, a ∈ insertUniqueSorted a l
  | [] => by simp [insertUniqueSorted]
  | b :: t => by
    simp only [insertUniqueSorted]
    by_cases h₁ : a < b
    · rw [if_pos h₁]; exact List.mem_cons_self _ _
    rw [if_neg h₁]
    by_cases h₂ : a = b
    · rw [if_pos h₂]; exact h₂ ▸ List.mem_cons_self _ _
    rw [if_neg h₂]
    exact List.mem_cons_of_mem _ (self_mem_insertUniqueSorted a t)

theorem mem_insertUniqueSorted_of_mem (a c : Nat) : ∀ l : List Nat,
    c ∈ l → c ∈ insertUniqueSorted a l
  | [] => by simp
  | b :: t => by
    intro hc
    simp only [insertUniqueSorted]
    by_cases h₁ : a < b
    · rw [if_pos h₁]; exact List.mem_cons_of_mem _ hc
    rw [if_neg h₁]
    by_cases h₂ : a = b
    · rw [if_pos h₂]; exact hc
    rw [if_neg h₂]
    rcases List.mem_cons.mp hc with hc | hc
    · exact hc ▸ List.mem_cons_self _ _
    · exact List.mem_cons_of_mem _ (mem_insertUniqueSorted_of_mem a c t hc)

theorem mem_npUnique {c : Nat} : ∀ {l : List Nat}, c ∈ l → c ∈ npUnique l
  | [], h => by simp at h
  | x :: xs, h => by
    simp only [npUnique, List.foldr_cons]
    rcases List.mem_cons.mp h with h | h
    · exact h ▸ self_mem_insertUniqueSorted _ _
    · exact mem_insertUniqueSorted_of_mem _ _ _ (mem_npUnique h)

theorem mapOption_mem {α β : Type} {f : α → Option β} : ∀ {l : List α} {ys : List β},
    mapOption f l = some ys → ∀ a ∈ l, ∃ b, f a = some b ∧ b ∈ ys
  | [], ys, h, a, ha => by simp at ha
  | x :: xs, ys, h, a, ha => by
    simp only [mapOption] at h
    rcases hx : f x with _ | y <;> rw [hx] at h
    · exact Option.noConfusion h
    rcases hxs : mapOption f xs with _ | ys' <;> rw [hxs] at h
    · exact Option.noConfusion h
    obtain rfl : y :: ys' = ys := by injection h
    rcases List.mem_cons.mp ha with ha | ha
    · exact ⟨y, ha ▸ hx, List.mem_cons_self _ _⟩
    · obtain ⟨b, hb, hbm⟩ := mapOption_mem hxs a ha
      exact ⟨b, hb, List.mem_cons_of_mem _ hbm⟩

theorem le_foldl_max : ∀ (xs : List Nat) (x : Nat), x ≤ xs.foldl max x
  | [], x => Nat.le_refl x
  | y :: ys, x => by
    simp only [List.foldl_cons]
    exact Nat.le_trans (Nat.le_max_left x y) (le_foldl_max ys (max x y))

theorem mem_le_foldl_max : ∀ (xs : List Nat) (x b : Nat), b ∈ xs → b ≤ xs.foldl max x
  | [], x, b, h => by simp at h
  | y :: ys, x, b, h => by
    simp only [List.foldl_cons]
    rcases List.mem_cons.mp h with h | h
    · subst h
      exact Nat.le_trans (Nat.le_max_right x b) (le_foldl_max ys (max x b))
    · exact mem_le_foldl_max ys (max x y) b h

theorem listMax_ge {l : List Nat} {m : Nat} (h : listMax l = some m) :
    ∀ b ∈ l, b ≤ m := by
  intro b hb
  cases l with
  | nil => simp at hb
  | cons x xs =>
    simp only [listMax, Option.some.injEq] at h
    subst h
    rcases List.mem_cons.mp hb with hb | hb
    · exact hb ▸ le_foldl_max xs x
    · exact mem_le_foldl_max xs x b hb

theorem maxFacesPerCell_le {dims : Nat} {cells : List (List Nat × Nat)} {m : Nat}
    (h : maxFacesPerCell dims cells = some m) {c : List Nat × Nat} (hc : c ∈ cells)
    {fpc : Nat} (hf : numFacesForShape dims c.2 = some fpc) : fpc ≤ m := by
  unfold maxFacesPerCell at h
  rcases hmo : mapOption (numFacesForShape dims) (npUnique (cells.map Prod.snd))
    with _ | fcs <;> rw [hmo] at h
  · exact Option.noConfusion h
  have hmem : c.2 ∈ npUnique (cells.map Prod.snd) :=
    mem_npUnique (List.mem_map_of_mem Prod.snd hc)
  obtain ⟨b, hb, hbm⟩ := mapOption_mem hmo _ hmem
  rw [hf] at hb
  obtain rfl : fpc = b := by injection hb
  exact listMax_ge h _ hbm

theorem derive_eq_some {dims : Nat} {cells : List (List Nat × Nat)}
    {faces : List (List Nat)} {rows : List (List Int)}
    (h : deriveCellsAndFacesPreFormat dims cells = some (faces, rows)) :
    ∃ m d' n', maxFacesPerCell dims cells = some m ∧
      deriveLoop dims m [] 0 [] cells = some (d', n', faces, rows) := by
  unfold deriveCellsAndFacesPreFormat at h
  split at h
  · exact Option.noConfusion h
  rename_i m hm
  split at h
  · exact Option.noConfusion h
  rename_i val d₀ n₀ u₀ rows₀ hdl
  simp only [Option.some.injEq, Prod.mk.injEq] at h
  obtain ⟨rfl, rfl⟩ := h
  exact ⟨m, d₀, n₀, hm, hdl⟩

theorem mem_of_getElem?_eq {α : Type} {l : List α} {i : Nat} {a : α}
    (h : l[i]? = some a) : a ∈ l := by
  obtain ⟨hlt, rfl⟩ := List.getElem?_eq_some_iff.mp h
  exact List.getElem_mem hlt

/-- C1: for every retained element list whose derivation succeeds, the output
faces have pairwise distinct sorted vertex tuples (no duplicate faces); any
two elements with candidate faces of equal sorted vertex tuple — the spec's
notion of "sharing all faceLength vertices", since face identity is the
sorted tuple — store the identical FaceID in their adjacency rows; and
concretely two adjacent triangles sharing the edge (0,1) yield exactly 5
unique faces, both rows holding the same FaceID 0 for the shared edge. -/
theorem claim_C1_face_dedup (dims : Nat) (cells : List (List Nat × Nat))
    (faces : List (List Nat)) (rows : List (List Int))
    (hd : deriveCellsAndFacesPreFormat dims cells = some (faces, rows)) :
    (∀ i j, i < faces.length → j < faces.length → i ≠ j →
      canonKey (faces.getD i []) ≠ canonKey (faces.getD j [])) ∧
    (∀ (i₁ i₂ j₁ j₂ : Nat) (c₁ c₂ : List Nat × Nat) (fpc₁ fpc₂ : Nat),
      cells[i₁]? = some c₁ → cells[i₂]? = some c₂ →
      numFacesForShape dims c₁.2 = some fpc₁ →
      numFacesForShape dims c₂.2 = some fpc₂ →
      j₁ < fpc₁ → j₂ < fpc₂ →
      canonKey ((extractFaces dims fpc₁ c₁.1).getD j₁ []) =
        canonKey ((extractFaces dims fpc₂ c₂.1).getD j₂ []) →
      ∃ id : Nat, (rows.getD i₁ [])[j₁]? = some ((id : Nat) : Int) ∧
        (rows.getD i₂ [])[j₂]? = some ((id : Nat) : Int)) ∧
    (deriveCellsAndFacesPreFormat 2 [([0,1,2], 2), ([0,1,3], 2)]).map
        (fun p => (p.1.length, (p.2.getD 0 [])[0]?, (p.2.getD 1 [])[0]?))
      = some (5, some 0, some 0) := by
  obtain ⟨m, d', n', hm, hdl⟩ := derive_eq_some hd
  obtain ⟨⟨hn, hb, hc⟩, _, _, hlen, hslot⟩ :=
    deriveLoop_spec _ _ _ _ _ _ _ _ _ _ hdl dictInv_nil
  refine ⟨?_, ?_, by decide⟩
  · intro i j hi hj hne heq
    have h₁ := hc i hi
    have h₂ := hc j hj
    rw [heq, h₂] at h₁
    have : j = i := by injection h₁
    exact hne this.symm
  · intro i₁ i₂ j₁ j₂ c₁ c₂ fpc₁ fpc₂ h₁ h₂ hf₁ hf₂ hj₁ hj₂ hkey
    obtain ⟨fpc₁', hf₁', row₁, hrow₁, hrlen₁, hvalid₁, hpad₁⟩ := hslot i₁ c₁ h₁
    obtain rfl : fpc₁ = fpc₁' := by rw [hf₁] at hf₁'; injection hf₁'
    obtain ⟨fpc₂', hf₂', row₂, hrow₂, hrlen₂, hvalid₂, hpad₂⟩ := hslot i₂ c₂ h₂
    obtain rfl : fpc₂ = fpc₂' := by rw [hf₂] at hf₂'; injection hf₂'
    obtain ⟨id₁, hid₁, hfind₁⟩ := hvalid₁ j₁ hj₁
    obtain ⟨id₂, hid₂, hfind₂⟩ := hvalid₂ j₂ hj₂
    rw [hkey, hfind₂] at hfind₁
    have hideq : id₂ = id₁ := by injection hfind₁
    refine ⟨id₁, ?_, ?_⟩
    · rw [getD_of_getElem?_some _ hrow₁]
      exact hid₁
    · rw [getD_of_getElem?_some _ hrow₂, ← hideq]
      exact hid₂

/-- Witness for C1: the two-triangle scenario, discharging the derivation
hypothesis at the concrete input. -/
theorem claim_C1_face_dedup_witness :
    (deriveCellsAndFacesPreFormat 2 [([0,1,2], 2), ([0,1,3], 2)]).map
        (fun p => (p.1.length, (p.2.getD 0 [])[0]?, (p.2.getD 1 [])[0]?))
      = some (5, some 0, some 0) :=
  (claim_C1_face_dedup 2 [([0,1,2], 2), ([0,1,3], 2)]
    [[0,1],[1,2],[2,0],[1,3],[3,0]] [[0,1,2],[0,3,4]] (by decide)).2.2

/-- C2: a single quadrilateral with vertices [0,1,2,3] and faceLength 2
yields exactly the 4 unique faces (0,1),(1,2),(2,3),(3,0), with FaceIDs
0,1,2,3 in that order in its adjacency row. -/
theorem claim_C2_quadrilateral :
    deriveCellsAndFacesPreFormat 2 [([0,1,2,3], 3)] =
      some ([[0,1],[1,2],[2,3],[3,0]], [[0,1,2,3]]) := by decide

/-- C3: every adjacency row has exactly maxFacesPerCell entries; slots beyond
an element's true face count hold the sentinel -1, and -1 is never a valid
FaceID (valid FaceIDs are the non-negative indices below the face count). -/
theorem claim_C3_row_padding (dims : Nat) (cells : List (List Nat × Nat))
    (faces : List (List Nat)) (rows : List (List Int)) (m : Nat)
    (hd : deriveCellsAndFacesPreFormat dims cells = some (faces, rows))
    (hm : maxFacesPerCell dims cells = some m) :
    rows.length = cells.length ∧
    (∀ (i : Nat) (c : List Nat × Nat), cells[i]? = some c →
      ∃ fpc, numFacesForShape dims c.2 = some fpc ∧ fpc ≤ m ∧
      ∃ row, rows[i]? = some row ∧ row.length = m ∧
        (∀ j, fpc ≤ j → j < m → row[j]? = some (-1)) ∧
        (∀ j, j < fpc → ∃ id : Nat, row[j]? = some ((id : Nat) : Int))) ∧
    (∀ id : Nat, id < faces.length → (-1 : Int) ≠ ((id : Nat) : Int)) := by
  obtain ⟨m', d', n', hm', hdl⟩ := derive_eq_some hd
  obtain rfl : m = m' := by rw [hm] at hm'; injection hm'
  obtain ⟨_, _, _, hlen, hslot⟩ := deriveLoop_spec _ _ _ _ _ _ _ _ _ _ hdl dictInv_nil
  refine ⟨hlen, ?_, ?_⟩
  · intro i c hi
    obtain ⟨fpc, hf, row, hrow, hrlen, hvalid, hpad⟩ := hslot i c hi
    have hle : fpc ≤ m := maxFacesPerCell_le hm (mem_of_getElem?_eq hi) hf
    have hsum : fpc + (m - fpc) = m := by omega
    refine ⟨fpc, hf, hle, row, hrow, by rw [hrlen, hsum], ?_, ?_⟩
    · intro j hj₁ hj₂
      exact hpad j hj₁ (by omega)
    · intro j hj
      obtain ⟨id, hid, _⟩ := hvalid j hj
      exact ⟨id, hid⟩
  · intro id _
    omega

/-- Witness for C3: a mesh mixing a triangle and a quadrilateral, so the
triangle's row is genuinely padded; instantiated at the triangle. -/
theorem claim_C3_row_padding_witness :
    ∃ fpc, numFacesForShape 2 (([0,1,2], 2) : List Nat × Nat).2 = some fpc ∧ fpc ≤ 4 ∧
    ∃ row, ([[0,1,2,-1],[0,1,3,4]] : List (List Int))[0]? = some row ∧ row.length = 4 ∧
      (∀ j, fpc ≤ j → j < 4 → row[j]? = some (-1)) ∧
      (∀ j, j < fpc → ∃ id : Nat, row[j]? = some ((id : Nat) : Int)) :=
  (claim_C3_row_padding 2 [([0,1,2], 2), ([0,1,2,3], 3)]
    [[0,1],[1,2],[2,0],[2,3],[3,0]] [[0,1,2,-1],[0,1,3,4]] 4
    (by decide) (by decide)).2.1 0 ([0,1,2], 2) (by decide)

/-- C4: round-trip over the deduplication — substituting each stored FaceID
back into the unique-face array reproduces, up to sorted-vertex-tuple
identity, the candidate face generated at that slot (no candidate is lost),
and every unique face literally is one of the generated candidate faces
(none is invented). -/
theorem claim_C4_roundtrip (dims : Nat) (cells : List (List Nat × Nat))
    (faces : List (List Nat)) (rows : List (List Int))
    (hd : deriveCellsAndFacesPreFormat dims cells = some (faces, rows)) :
    (∀ (i j : Nat) (c : List Nat × Nat) (fpc : Nat), cells[i]? = some c →
      numFacesForShape dims c.2 = some fpc → j < fpc →
      ∃ id : Nat, (rows.getD i [])[j]? = some ((id : Nat) : Int) ∧ id < faces.length ∧
        canonKey (faces.getD id []) =
          canonKey ((extractFaces dims fpc c.1).getD j [])) ∧
    (∀ id : Nat, id < faces.length → faces.getD id [] ∈ allCandidateFaces dims cells) := by
  obtain ⟨m, d', n', hm, hdl⟩ := derive_eq_some hd
  obtain ⟨⟨hn, hb, hc⟩, _, ⟨ext, hext, hextmem⟩, hlen, hslot⟩ :=
    deriveLoop_spec _ _ _ _ _ _ _ _ _ _ hdl dictInv_nil
  constructor
  · intro i j c fpc hi hf hj
    obtain ⟨fpc', hf', row, hrow, hrlen, hvalid, hpad⟩ := hslot i c hi
    obtain rfl : fpc = fpc' := by rw [hf] at hf'; injection hf'
    obtain ⟨id, hid, hfind⟩ := hvalid j hj
    obtain ⟨hidlt, hkey⟩ := hb _ _ hfind
    refine ⟨id, ?_, hidlt, hkey⟩
    rw [getD_of_getElem?_some _ hrow]
    exact hid
  · intro id hid
    have hfe : faces = ext := by simpa using hext
    rw [hfe] at hid ⊢
    have hmem : ext.getD id [] ∈ ext := by
      rw [List.getD_eq_getElem _ _ hid]
      exact List.getElem_mem hid
    exact hextmem _ hmem

/-- Witness for C4: the quadrilateral input, instantiated at its first
candidate face. -/
theorem claim_C4_roundtrip_witness :
    ∃ id : Nat, (([[0,1,2,3]] : List (List Int)).getD 0 [])[0]? = some ((id : Nat) : Int) ∧
      id < ([[0,1],[1,2],[2,3],[3,0]] : List (List Nat)).length ∧
      canonKey (([[0,1],[1,2],[2,3],[3,0]] : List (List Nat)).getD id []) =
        canonKey ((extractFaces 2 4 ([0,1,2,3] : List Nat)).getD 0 []) :=
  (claim_C4_roundtrip 2 [([0,1,2,3], 3)] [[0,1],[1,2],[2,3],[3,0]] [[0,1,2,3]]
    (by decide)).1 0 0 ([0,1,2,3], 3) 4 (by decide) (by decide) (by decide)

/-- C5 (code bug): a format header reporting version 1.9 does not cause any
Version-Unsupported failure — the constructor isolates and hands over the
Nodes/Elements sections for parsing regardless, because the stored header
version is never validated and `_checkGmshVersion`'s Python 2 comparison of
the executable's version string against a number is always true (so even a
gmsh executable reporting 1.0 passes a minimum of 2 or 2.5). -/
theorem claim_C5_version_gate_vacuous :
    mshFileInit ⟨["1.9", "0", "8"], ["2", "1 0 0 0", "2 1 0 0"], ["1", "1 2 3 0 1 2"]⟩
        (some "2.16") (Py2Val.pyInt 2) =
      Except.ok (["1.9", "0", "8"], ["2", "1 0 0 0", "2 1 0 0"], ["1", "1 2 3 0 1 2"]) ∧
    checkGmshVersion (some "1.0") (Py2Val.pyInt 2) = Except.ok () ∧
    checkGmshVersion (some "1.0") (Py2Val.pyFloat (5/2)) = Except.ok () :=
  ⟨rfl, rfl, rfl⟩

/-- C8: partition-tag classification of an element whose reversed tag list is
[-3, 2]: ghost under pid 3, owned under pid 2, neither under pid 5 (and the
same via the file-order tag list [2, -3], which the code reverses). -/
theorem claim_C8_partition_tags :
    classifyElement 3 [-3, 2] = some (true, false) ∧
    classifyElement 2 [-3, 2] = some (false, true) ∧
    classifyElement 5 [-3, 2] = some (false, false) ∧
    parsePartitionTags 3 [2, -3] = some (true, false) := by decide

/-- C10: an empty retained element list makes face derivation fail (Python's
`max` over the empty face-count sequence raises) rather than return an empty
topology, for every mesh dimensionality. -/
theorem claim_C10_empty_element_list (dims : Nat) :
    deriveCellsAndFaces dims [] = none ∧
    deriveCellsAndFacesPreFormat dims [] = none :=
  ⟨rfl, rfl⟩

theorem assignIndicesFrom_not_mem : ∀ (vs : List Nat) (i : Nat) (m : Nat → Option Nat)
    (v : Nat), v ∉ vs → assignIndicesFrom i m vs v = m v
  | [], _, _, _, _ => rfl
  | w :: ws, i, m, v, h => by
    simp only [assignIndicesFrom]
    have hvw : v ≠ w := fun he => h (he ▸ List.mem_cons_self _ _)
    rw [assignIndicesFrom_not_mem ws (i + 1) _ v (fun hm => h (List.mem_cons_of_mem _ hm))]
    simp [hvw]

theorem assignIndicesFrom_last : ∀ (vs : List Nat) (i k : Nat) (m : Nat → Option Nat)
    (v : Nat), vs[k]? = some v → (∀ k', k < k' → vs[k']? ≠ some v) →
    assignIndicesFrom i m vs v = some (i + k)
  | [], i, k, m, v, h, _ => by simp at h
  | w :: ws, i, k, m, v, h, hlast => by
    cases k with
    | zero =>
      simp only [List.getElem?_cons_zero] at h
      have hwv : w = v := by injection h
      have hnot : v ∉ ws := by
        intro hm
        obtain ⟨j, hj, hje⟩ := List.mem_iff_getElem.mp hm
        have hje' : ws[j]? = some v := by
          rw [List.getElem?_eq_getElem hj, hje]
        have := hlast (j + 1) (by omega)
        rw [List.getElem?_cons_succ] at this
        exact this hje'
      simp only [assignIndicesFrom]
      rw [assignIndicesFrom_not_mem ws (i + 1) _ v hnot]
      simp [hwv]
    | succ k =>
      simp only [List.getElem?_cons_succ] at h
      have hlast' : ∀ k', k < k' → ws[k']? ≠ some v := by
        intro k' hk'
        have := hlast (k' + 1) (by omega)
        rw [List.getElem?_cons_succ] at this
        exact this
      simp only [assignIndicesFrom]
      rw [assignIndicesFrom_last ws (i + 1) k _ v h hlast']
      congr 1
      omega

theorem npTranspose_getElem? {α : Type} (d : α) (m : List (List α)) (j : Nat)
    (hj : j < (m.headD []).length) :
    (npTranspose d m)[j]? = some (m.map fun row => row.getD j d) := by
  unfold npTranspose
  rw [List.getElem?_map, List.getElem?_range hj]
  rfl

theorem vertexCoordsAndMap_idx (coordDims k : Nat) (p : Nat × List Int)
    (rest : List (Nat × List Int)) (rec : Nat × List Int)
    (hk : (p :: rest)[k]? = some rec)
    (hlast : ∀ k', k < k' → ((p :: rest).map Prod.fst)[k']? ≠ some rec.1) :
    (vertexCoordsAndMap coordDims (p :: rest)).map (fun q => q.2 rec.1)
      = some (some k) := by
  have hv : vertexCoordsAndMap coordDims (p :: rest) =
      some ((npTranspose 0 ((p :: rest).map Prod.snd)).take coordDims,
            assignIndicesFrom 0 (fun _ => none) ((p :: rest).map Prod.fst)) := rfl
  rw [hv]
  have hk' : ((p :: rest).map Prod.fst)[k]? = some rec.1 := by
    rw [List.getElem?_map, hk]
    rfl
  have := assignIndicesFrom_last ((p :: rest).map Prod.fst) 0 k (fun _ => none)
    rec.1 hk' hlast
  simp only [Option.map_some']
  rw [this]
  simp

/-- C6 counterexample: for the node block [(5, [10]), (2, [20])] the builder
maps the smallest VertexID 2 to index 1 (its record position), not 0, and
column 0 of the coordinate array holds vertex 5's coordinate — refuting
ascending-VertexID ordering of the vertex table. -/
theorem claim_C6_counterexample :
    (vertexCoordsAndMap 1 [(5, [10]), (2, [20])]).map (fun p => p.2 2)
      = some (some 1) ∧
    ¬ ((vertexCoordsAndMap 1 [(5, [10]), (2, [20])]).map (fun p => p.2 2)
      = some (some 0)) ∧
    (vertexCoordsAndMap 1 [(5, [10]), (2, [20])]).map Prod.fst = some [[10, 20]] :=
  ⟨by decide, by decide, by decide⟩

/-- C6 (amended): the Vertex Table Builder assigns dense indices in node
*record* order, not ascending-VertexID order: the k-th record's VertexID
receives VertexIndex k (provided that ID does not recur later) and its
coordinates occupy column k of the truncated, transposed coordinate array. -/
theorem claim_C6_record_order (coordDims L k : Nat) (nodes : List (Nat × List Int))
    (rec : Nat × List Int)
    (hrect : ∀ r ∈ nodes, r.2.length = L)
    (hk : nodes[k]? = some rec)
    (hlast : ∀ k', k < k' → (nodes.map Prod.fst)[k']? ≠ some rec.1) :
    (vertexCoordsAndMap coordDims nodes).map (fun p => p.2 rec.1) = some (some k) ∧
    (∀ j, j < coordDims → j < L →
      (vertexCoordsAndMap coordDims nodes).map (fun p => (p.1.getD j []).getD k 0)
        = some (rec.2.getD j 0)) := by
  cases nodes with
  | nil => simp at hk
  | cons p rest =>
    refine ⟨vertexCoordsAndMap_idx coordDims k p rest rec hk hlast, ?_⟩
    intro j hj hjL
    have hv : vertexCoordsAndMap coordDims (p :: rest) =
        some ((npTranspose 0 ((p :: rest).map Prod.snd)).take coordDims,
              assignIndicesFrom 0 (fun _ => none) ((p :: rest).map Prod.fst)) := rfl
    rw [hv]
    simp only [Option.map_some']
    congr 1
    have hwidth : ((((p :: rest).map Prod.snd)).headD []).length = L := by
      simp only [List.map_cons, List.headD_cons]
      exact hrect p (List.mem_cons_self _ _)
    have hT := npTranspose_getElem? (0 : Int) ((p :: rest).map Prod.snd) j
      (by rw [hwidth]; exact hjL)
    have htcol : ((npTranspose 0 ((p :: rest).map Prod.snd)).take coordDims).getD j []
        = ((p :: rest).map Prod.snd).map (fun row => row.getD j 0) :=
      getD_of_getElem?_some _ (by rw [List.getElem?_take_of_lt hj, hT])
    rw [htcol]
    have hk2 : ((p :: rest).map Prod.snd)[k]? = some rec.2 := by
      rw [List.getElem?_map, hk]
      rfl
    rw [List.getD_eq_getElem?_getD, List.getElem?_map, hk2]
    rfl

/-- Witness for C6 (amended): the out-of-order node block, first record. -/
theorem claim_C6_record_order_witness :
    (vertexCoordsAndMap 1 [(5, [10]), (2, [20])]).map (fun p => p.2 5)
      = some (some 0) ∧
    (∀ j, j < 1 → j < 1 →
      (vertexCoordsAndMap 1 [(5, [10]), (2, [20])]).map
          (fun p => (p.1.getD j []).getD 0 0)
        = some ((((5 : Nat), ([10] : List Int)) : Nat × List Int).2.getD j 0)) :=
  claim_C6_record_order 1 1 0 [(5, [10]), (2, [20])] (5, [10])
    (by decide) (by decide)
    (by
      intro k' hk'
      match k' with
      | 0 => omega
      | 1 => decide
      | (k'' + 2) =>
        rw [List.getElem?_eq_none (by simp)]
        exact fun h => Option.noConfusion h)

/-- C7 counterexample: a node block with the duplicated VertexID 2 is not
rejected — the builder returns normally, mapping 2 to the index of its last
occurrence. -/
theorem claim_C7_counterexample :
    (vertexCoordsAndMap 1 [(2, [10]), (2, [20])]).isSome = true ∧
    (vertexCoordsAndMap 1 [(2, [10]), (2, [20])]).map (fun p => p.2 2)
      = some (some 1) :=
  ⟨by decide, by decide⟩

/-- C7 (amended): duplicated VertexIDs are not detected: the Vertex Table
Builder returns normally on any non-empty node block, and each VertexID maps
to the dense index of its *last* occurrence (numpy fancy assignment,
last write wins). -/
theorem claim_C7_duplicate_last_wins (coordDims k : Nat)
    (nodes : List (Nat × List Int)) (rec : Nat × List Int)
    (hk : nodes[k]? = some rec)
    (hlast : ∀ k', k < k' → (nodes.map Prod.fst)[k']? ≠ some rec.1) :
    (vertexCoordsAndMap coordDims nodes).isSome = true ∧
    (vertexCoordsAndMap coordDims nodes).map (fun p => p.2 rec.1)
      = some (some k) := by
  cases nodes with
  | nil => simp at hk
  | cons p rest =>
    exact ⟨rfl, vertexCoordsAndMap_idx coordDims k p rest rec hk hlast⟩

/-- Witness for C7 (amended): a VertexID repeated three times maps to the
index of its last occurrence. -/
theorem claim_C7_duplicate_last_wins_witness :
    (vertexCoordsAndMap 2 [(7, [1, 4]), (7, [2, 5]), (7, [3, 6])]).isSome = true ∧
    (vertexCoordsAndMap 2 [(7, [1, 4]), (7, [2, 5]), (7, [3, 6])]).map
        (fun p => p.2 7)
      = some (some 2) :=
  claim_C7_duplicate_last_wins 2 2 [(7, [1, 4]), (7, [2, 5]), (7, [3, 6])] (7, [3, 6])
    (by decide)
    (by
      intro k' hk'
      match k' with
      | 0 => omega
      | 1 => omega
      | 2 => omega
      | (k'' + 3) =>
        rw [List.getElem?_eq_none (by simp)]
        exact fun h => Option.noConfusion h)

theorem streamCapture_count : ∀ (nodes : List (Nat × List Int)) (wanted : List Nat)
    (cd : Nat),
    (streamCapture cd nodes wanted).1.length + (streamCapture cd nodes wanted).2.length
      = wanted.length
  | _, [], _ => by simp [streamCapture]
  | [], w :: ws, cd => by simp [streamCapture]
  | (nodeID, coords) :: nodes, w :: ws, cd => by
    simp only [streamCapture]
    by_cases h : nodeID = w
    · rw [if_pos h]
      rcases hsc : streamCapture cd nodes ws with ⟨caps, leftover⟩
      have hrec := streamCapture_count nodes ws cd
      rw [hsc] at hrec
      simp only at hrec
      show (List.take cd coords :: caps).length + leftover.length = (w :: ws).length
      simp only [List.length_cons]
      omega
    · rw [if_neg h]
      rcases hsc : streamCapture cd nodes (w :: ws) with ⟨caps, leftover⟩
      have hrec := streamCapture_count nodes (w :: ws) cd
      rw [hsc] at hrec
      exact hrec

theorem npUnique_ne_nil {l : List Nat} (h : l ≠ []) : npUnique l ≠ [] := by
  cases l with
  | nil => exact absurd rfl h
  | cons x xs =>
    have hx : x ∈ npUnique (x :: xs) := mem_npUnique (List.mem_cons_self _ _)
    intro he
    rw [he] at hx
    simp at hx

theorem partedVertexCoordsAndMap_eq (coordDims : Nat) (cells : List (List Nat))
    (nodes : List (Nat × List Int)) (h : npUnique cells.flatten ≠ []) :
    partedVertexCoordsAndMap coordDims cells nodes =
      some ((streamCapture coordDims nodes (npUnique cells.flatten)).1.map some ++
              List.replicate
                (streamCapture coordDims nodes (npUnique cells.flatten)).2.length none,
            fun v => ((idxOfOpt v (npUnique cells.flatten)).map Int.ofNat).getD (-1)) := by
  unfold partedVertexCoordsAndMap
  cases hA : npUnique cells.flatten with
  | nil => exact absurd hA h
  | cons a as =>
    simp only [hA]

/-- C9 counterexample: for local cells referencing vertices {2, 5} and the
descending node stream [(5, [7]), (2, [8])] — not ascending, and vertex 5
never matched by the single merge pass — the streaming reader raises nothing:
it returns normally, with vertex 5's coordinate row left uninitialized. -/
theorem claim_C9_counterexample :
    (partedVertexCoordsAndMap 1 [[2, 5]] [(5, [7]), (2, [8])]).isSome = true ∧
    (partedVertexCoordsAndMap 1 [[2, 5]] [(5, [7]), (2, [8])]).map Prod.fst
      = some [some [8], none] :=
  ⟨by decide, by decide⟩

/-- C9 (amended): the streaming vertex reader performs no ordering or
completeness check: whenever the local cells reference at least one vertex it
returns normally for *every* node stream; the coordinate array has one row
per requested VertexID, and every row past the captured prefix — one row per
requested ID never matched in the single pass — is left uninitialized. -/
theorem claim_C9_no_order_check (coordDims : Nat) (cells : List (List Nat))
    (nodes : List (Nat × List Int)) (h : cells.flatten ≠ []) :
    (partedVertexCoordsAndMap coordDims cells nodes).isSome = true ∧
    (∀ (rows : List (Option (List Int))) (m : Nat → Int),
      partedVertexCoordsAndMap coordDims cells nodes = some (rows, m) →
      rows.length = (npUnique cells.flatten).length ∧
      (∀ i, (streamCapture coordDims nodes (npUnique cells.flatten)).1.length ≤ i →
        i < rows.length → rows[i]? = some none)) := by
  have hnn := npUnique_ne_nil h
  rw [partedVertexCoordsAndMap_eq coordDims cells nodes hnn]
  refine ⟨rfl, ?_⟩
  intro rows m hr
  simp only [Option.some.injEq, Prod.mk.injEq] at hr
  obtain ⟨hrows, -⟩ := hr
  subst hrows
  constructor
  · rw [List.length_append, List.length_map, List.length_replicate]
    exact streamCapture_count nodes (npUnique cells.flatten) coordDims
  · intro i hi hilen
    have hcaps : ((streamCapture coordDims nodes (npUnique cells.flatten)).1.map
        (some : List Int → Option (List Int))).length ≤ i := by
      rw [List.length_map]
      exact hi
    rw [List.getElem?_append_right hcaps]
    have hlt : i - (streamCapture coordDims nodes (npUnique cells.flatten)).1.length <
        (streamCapture coordDims nodes (npUnique cells.flatten)).2.length := by
      rw [List.length_append, List.length_map, List.length_replicate] at hilen
      omega
    simp [List.getElem?_replicate, hlt]

/-- Witness for C9 (amended): the descending, incomplete stream. -/
theorem claim_C9_no_order_check_witness :
    (partedVertexCoordsAndMap 1 [[2, 5]] [(5, [7]), (2, [8])]).isSome = true ∧
    (∀ (rows : List (Option (List Int))) (m : Nat → Int),
      partedVertexCoordsAndMap 1 [[2, 5]] [(5, [7]), (2, [8])] = some (rows, m) →
      rows.length = (npUnique ([[2, 5]] : List (List Nat)).flatten).length ∧
      (∀ i, (streamCapture 1 [(5, [7]), (2, [8])]
          (npUnique ([[2, 5]] : List (List Nat)).flatten)).1.length ≤ i →
        i < rows.length → rows[i]? = some none)) :=
  claim_C9_no_order_check 1 [[2, 5]] [(5, [7]), (2, [8])] (by decide)

end GmshImport
